import Mathlib

/-!
Shallow embedding of the GovDocsHelper matching core
(gov_docs_helper/utils.py, weeding_set.py, fdlp_reference.py, writers.py).

CSV cells are lists of characters, CSV rows are lists of cells, and a CSV
file's contents is the list of its rows.  Python dicts are association
lists in insertion order; Python sets are finite sets.  Fallible code
(exceptions) is modelled with the Except monad.
-/

namespace GovDocsHelper

/-- A CSV cell: the characters of one field. -/
abbrev Cell := List Char

/-- A CSV row: the list of its cells. -/
abbrev Row := List Cell

/-- Decidable equality of Except values, for evaluating the embedding on
concrete inputs. -/
instance {ε α : Type} [DecidableEq ε] [DecidableEq α] : DecidableEq (Except ε α)
  | Except.error x, Except.error y =>
    if h : x = y then Decidable.isTrue (by rw [h])
    else Decidable.isFalse (by intro hc; cases hc; exact h rfl)
  | Except.error _, Except.ok _ => Decidable.isFalse (by intro h; cases h)
  | Except.ok _, Except.error _ => Decidable.isFalse (by intro h; cases h)
  | Except.ok x, Except.ok y =>
    if h : x = y then Decidable.isTrue (by rw [h])
    else Decidable.isFalse (by intro hc; cases hc; exact h rfl)

-- ------------------------------------------------------------------
-- utils.simplify_sudoc_number: sudoc_number.replace(" ", "")
-- ------------------------------------------------------------------

/-- Embedding of utils.simplify_sudoc_number: Python str.replace(" ", ""),
the left-to-right scan that drops every space character. -/
def simplify_sudoc_number : Cell → Cell
  | [] => []
  | c :: cs => if c = ' ' then simplify_sudoc_number cs else c :: simplify_sudoc_number cs

-- ------------------------------------------------------------------
-- Decimal strings: f"{row_number}" and int(fragment)
-- ------------------------------------------------------------------

/-- The decimal digit character of a value below ten (as in Python str(int)). -/
def digitChar (n : Nat) : Char := Char.ofNat (48 + n)

/-- Fuel-driven core of the decimal printer (structural recursion so that the
kernel evaluates it on concrete inputs). -/
def toDecCore (fuel : Nat) (n : Nat) : List Char :=
  match fuel with
  | 0 => []
  | fuel + 1 => if n < 10 then [digitChar n] else toDecCore fuel (n / 10) ++ [digitChar (n % 10)]

/-- Embedding of Python f"{n}" for a natural number: its decimal digits. -/
def toDec (n : Nat) : List Char := toDecCore (n + 1) n

/-- The value of one decimal digit character, none for a non-digit. -/
def parseDigit (c : Char) : Option Nat :=
  if 48 ≤ c.toNat ∧ c.toNat ≤ 57 then some (c.toNat - 48) else none

/-- Accumulating core of the decimal parser. -/
def parseDecCore (acc : Nat) : List Char → Option Nat
  | [] => some acc
  | c :: cs =>
    match parseDigit c with
    | none => none
    | some d => parseDecCore (acc * 10 + d) cs

/-- Embedding of Python int(fragment) on the nonnegative decimal fragments this
program stores: succeeds exactly on nonempty all-digit strings, none (a raised
ValueError) otherwise. -/
def parseDec : List Char → Option Nat
  | [] => none
  | c :: cs => parseDecCore 0 (c :: cs)

-- ------------------------------------------------------------------
-- Python str.split(sep) for a one-character separator, and joining
-- ------------------------------------------------------------------

/-- Embedding of Python value.split(",") for a single-character separator:
splitting the empty string yields one empty fragment, as in Python. -/
def splitOnChar (sep : Char) : List Char → List (List Char)
  | [] => [[]]
  | c :: cs =>
    if c = sep then [] :: splitOnChar sep cs
    else
      match splitOnChar sep cs with
      | [] => [[c]]
      | r :: rs => (c :: r) :: rs

/-- Joining fragments with a separator string, the shape the incremental
value += "," + str(row_number) updates produce. -/
def joinWith (sep : List Char) : List (List Char) → List Char
  | [] => []
  | [x] => x
  | x :: xs => x ++ sep ++ joinWith sep xs

-- ------------------------------------------------------------------
-- Python dict as an insertion-ordered association list
-- ------------------------------------------------------------------

/-- Python dict read d[k] / d.get(k): the value at the first matching key. -/
def lookupA {K V : Type} [DecidableEq K] (k : K) : List (K × V) → Option V
  | [] => none
  | p :: ps => if p.1 = k then some p.2 else lookupA k ps

/-- Python dict write d[k] = v: replace the value in place when the key is
present, append the pair at the end otherwise (insertion order preserved). -/
def setA {K V : Type} [DecidableEq K] (k : K) (v : V) : List (K × V) → List (K × V)
  | [] => [(k, v)]
  | p :: ps => if p.1 = k then (k, v) :: ps else p :: setA k v ps

/-- Python list.index(x): the first index holding the value, none (a raised
ValueError) when absent. -/
def listIndex (target : Cell) : List Cell → Option Nat
  | [] => none
  | c :: cs => if c = target then some 0 else (listIndex target cs).map (fun i => i + 1)

-- ------------------------------------------------------------------
-- weeding_set.WeedingSet
-- ------------------------------------------------------------------

/-- Errors WeedingSet._read_from_file can raise: StopIteration on an empty
file (next(reader)), ValueError from headers.index (the spec's SchemaError),
IndexError from row[i] (a short row). -/
inductive ReadError where
  | emptyFile
  | schemaError
  | indexError
  deriving DecidableEq

/-- Embedding of weeding_set.WeedingSet's fields.  `headers` is initialized to
[] by __init__ and, as in the source, never assigned afterwards. -/
structure WeedingSet where
  headers : List Cell
  sudoc_numbers : Finset Cell
  sudoc_number_to_row_nums : List (Cell × Cell)
  sudoc_row_num_to_row : List (Nat × Row)
  deriving DecidableEq

/-- The WeedingSet fields as __init__ sets them before reading the file. -/
def emptyWeedingSet : WeedingSet :=
  { headers := [], sudoc_numbers := ∅, sudoc_number_to_row_nums := [], sudoc_row_num_to_row := [] }

/-- One iteration of the loop body of WeedingSet._read_from_file, for the
content row `row` numbered `row_number`: record the row, locate the
classification-number column in the header row by name, normalize the value
there, add it to the set and extend the comma-joined row-number string. -/
def weedingSetStep (hdr : List Cell) (name : Cell) (row_number : Nat) (row : Row)
    (ws : WeedingSet) : Except ReadError WeedingSet :=
  let ws1 : WeedingSet :=
    { ws with sudoc_row_num_to_row := setA row_number row ws.sudoc_row_num_to_row }
  match listIndex name hdr with
  | none => Except.error ReadError.schemaError
  | some idx =>
    match row[idx]? with
    | none => Except.error ReadError.indexError
    | some sudoc_number =>
      let simplified := simplify_sudoc_number sudoc_number
      let ws2 : WeedingSet := { ws1 with sudoc_numbers := insert simplified ws1.sudoc_numbers }
      match lookupA simplified ws2.sudoc_number_to_row_nums with
      | none =>
        let m2 := setA simplified (toDec row_number) ws2.sudoc_number_to_row_nums
        Except.ok { ws2 with sudoc_number_to_row_nums := m2 }
      | some existing_rows =>
        let m2 := setA simplified (existing_rows ++ ',' :: toDec row_number)
          ws2.sudoc_number_to_row_nums
        Except.ok { ws2 with sudoc_number_to_row_nums := m2 }

/-- The loop of WeedingSet._read_from_file over the content rows, with
`row_number` enumerating from its starting value. -/
def weedingSetFold (hdr : List Cell) (name : Cell) :
    Nat → List Row → WeedingSet → Except ReadError WeedingSet
  | _, [], ws => Except.ok ws
  | row_number, row :: rest, ws =>
    match weedingSetStep hdr name row_number row ws with
    | Except.error e => Except.error e
    | Except.ok ws2 => weedingSetFold hdr name (row_number + 1) rest ws2

/-- Embedding of WeedingSet.__init__ + _read_from_file on a file's rows: the
first row is the header, the content rows are numbered from 2. -/
def buildWeedingSet (fileRows : List Row) (name : Cell) : Except ReadError WeedingSet :=
  match fileRows with
  | [] => Except.error ReadError.emptyFile
  | hdr :: rest => weedingSetFold hdr name 2 rest emptyWeedingSet

-- ------------------------------------------------------------------
-- fdlp_reference.FDLPReferenceDoc / _SearcherReferenceDoc / FDLPSearcher
-- ------------------------------------------------------------------

/-- Embedding of fdlp_reference.FDLPReferenceDoc, with the file's contents in
place of its path. -/
structure FDLPReferenceDoc where
  fileRows : List Row
  skip_rows : Nat
  sudoc_number_column_index : Nat
  classification_type : Option Cell
  classification_type_column_index : Nat
  header_row_index : Option Nat
  deriving DecidableEq

/-- Embedding of fdlp_reference._SearcherReferenceDoc: the wrapped document
plus the captured header row and the rows-of-interest dict. -/
structure SearcherReferenceDoc where
  doc : FDLPReferenceDoc
  headers : Option Row
  rows_of_interest : List (Nat × Row)
  deriving DecidableEq

/-- Errors FDLPSearcher._read_from_file can raise: IndexError from row[i],
KeyError from the sudoc_number_to_row_nums dict read, ValueError from
int(fragment) (the spec's FormatError). -/
inductive ScanError where
  | indexError
  | keyError
  | formatError
  deriving DecidableEq

/-- Embedding of fdlp_reference.FDLPSearcher's fields. -/
structure FDLPSearcher where
  weeding_set : WeedingSet
  reference_docs : List SearcherReferenceDoc
  scu_sudoc_row_nums_for_matches : Finset Nat
  scu_rows_not_matched : List Row
  scu_rows_matched : List Row
  deriving DecidableEq

/-- FDLPSearcher.__init__: a searcher over a weeding set, all accumulators empty. -/
def mkSearcher (ws : WeedingSet) : FDLPSearcher :=
  { weeding_set := ws, reference_docs := [], scu_sudoc_row_nums_for_matches := ∅,
    scu_rows_not_matched := [], scu_rows_matched := [] }

/-- FDLPSearcher._reset: empty every accumulator; the weeding set is kept. -/
def searcherReset (s : FDLPSearcher) : FDLPSearcher :=
  { s with
    reference_docs := []
    scu_sudoc_row_nums_for_matches := ∅
    scu_rows_not_matched := []
    scu_rows_matched := [] }

/-- The inner loop over rows_nums in _read_from_file: add int(fragment) for
every comma-split fragment into the matched-row-number set. -/
def parseRowNums (fragments : List Cell) (matched : Finset Nat) : Except ScanError (Finset Nat) :=
  match fragments with
  | [] => Except.ok matched
  | f :: fs =>
    match parseDec f with
    | none => Except.error ScanError.formatError
    | some n => parseRowNums fs (insert n matched)

/-- One iteration of the row loop of FDLPSearcher._read_from_file: capture the
header row, skip leading rows, apply the classification-type filter when the
configured string is truthy (non-None and nonempty), then normalize the
classification number and record a match when it is in the weeding set. -/
def scanRow (ws : WeedingSet) (rd : SearcherReferenceDoc) (matched : Finset Nat)
    (row_index : Nat) (row : Row) : Except ScanError (SearcherReferenceDoc × Finset Nat) :=
  if rd.doc.header_row_index = some row_index then
    Except.ok ({ rd with headers := some row }, matched)
  else if row_index < rd.doc.skip_rows then
    Except.ok (rd, matched)
  else
    let typeMismatch : Except ScanError Bool :=
      match rd.doc.classification_type with
      | none => Except.ok false
      | some ct =>
        if ct = [] then Except.ok false
        else
          match row[rd.doc.classification_type_column_index]? with
          | none => Except.error ScanError.indexError
          | some v => Except.ok (decide (v ≠ ct))
    match typeMismatch with
    | Except.error e => Except.error e
    | Except.ok true => Except.ok (rd, matched)
    | Except.ok false =>
      match row[rd.doc.sudoc_number_column_index]? with
      | none => Except.error ScanError.indexError
      | some fdlp_sudoc_number =>
        let simplified := simplify_sudoc_number fdlp_sudoc_number
        if simplified ∈ ws.sudoc_numbers then
          let rd2 : SearcherReferenceDoc :=
            { rd with rows_of_interest := setA row_index row rd.rows_of_interest }
          match lookupA simplified ws.sudoc_number_to_row_nums with
          | none => Except.error ScanError.keyError
          | some rows_nums_str =>
            match parseRowNums (splitOnChar ',' rows_nums_str) matched with
            | Except.error e => Except.error e
            | Except.ok matched2 => Except.ok (rd2, matched2)
        else Except.ok (rd, matched)

/-- The row loop of FDLPSearcher._read_from_file, enumerating rows from a
starting index. -/
def scanRows (ws : WeedingSet) :
    List Row → Nat → SearcherReferenceDoc → Finset Nat →
    Except ScanError (SearcherReferenceDoc × Finset Nat)
  | [], _, rd, matched => Except.ok (rd, matched)
  | row :: rest, row_index, rd, matched =>
    match scanRow ws rd matched row_index row with
    | Except.error e => Except.error e
    | Except.ok (rd2, matched2) => scanRows ws rest (row_index + 1) rd2 matched2

/-- Embedding of FDLPSearcher._read_from_file for one reference document:
wrap it, scan its rows from index 0, append the scanned document and take the
extended matched set. -/
def readFromFile (s : FDLPSearcher) (doc : FDLPReferenceDoc) : Except ScanError FDLPSearcher :=
  let rd : SearcherReferenceDoc := { doc := doc, headers := none, rows_of_interest := [] }
  match scanRows s.weeding_set doc.fileRows 0 rd s.scu_sudoc_row_nums_for_matches with
  | Except.error e => Except.error e
  | Except.ok (rd2, matched2) =>
    let docs2 := s.reference_docs ++ [rd2]
    Except.ok { s with reference_docs := docs2, scu_sudoc_row_nums_for_matches := matched2 }

/-- The loop of search_fdlp_references over the given reference documents. -/
def readAll (s : FDLPSearcher) : List FDLPReferenceDoc → Except ScanError FDLPSearcher
  | [] => Except.ok s
  | d :: ds =>
    match readFromFile s d with
    | Except.error e => Except.error e
    | Except.ok s2 => readAll s2 ds

/-- One step of the loop of FDLPSearcher._separate_rows: append the row to the
matched list when its row number is in the matched set, to the unmatched list
otherwise. -/
def separateStep (matched : Finset Nat) (acc : List Row × List Row) (p : Nat × Row) :
    List Row × List Row :=
  if p.1 ∈ matched then (acc.1 ++ [p.2], acc.2) else (acc.1, acc.2 ++ [p.2])

/-- Embedding of FDLPSearcher._separate_rows: walk sudoc_row_num_to_row in
insertion order, appending each row to the matched or unmatched list. -/
def separateRows (s : FDLPSearcher) : FDLPSearcher :=
  let r := s.weeding_set.sudoc_row_num_to_row.foldl
    (separateStep s.scu_sudoc_row_nums_for_matches) (s.scu_rows_matched, s.scu_rows_not_matched)
  { s with scu_rows_matched := r.1, scu_rows_not_matched := r.2 }

/-- Embedding of FDLPSearcher.search_fdlp_references: reset, read every
reference document, then separate the weeding-set rows. -/
def search_fdlp_references (s : FDLPSearcher) (docs : List FDLPReferenceDoc) :
    Except ScanError FDLPSearcher :=
  match readAll (searcherReset s) docs with
  | Except.error e => Except.error e
  | Except.ok s2 => Except.ok (separateRows s2)

-- ------------------------------------------------------------------
-- fdlp_reference.FDLPSearcher.write_matches_to_file
-- ------------------------------------------------------------------

/-- Errors write_matches_to_file can raise: IndexError from doc_row[i],
KeyError from the sudoc_number_to_row_nums dict read (both LookupError
subclasses in Python; the latter is the spec's LookupError). -/
inductive WriteError where
  | indexError
  | lookupError
  deriving DecidableEq

/-- The loop of write_matches_to_file over rows_of_interest: augment each row
of interest with its original row number and the comma-joined weeding-set row
numbers looked up through the re-normalized classification-number value. -/
def augmentRows (ws : WeedingSet) (sudocIdx : Nat) :
    List (Nat × Row) → Except WriteError (List Row)
  | [] => Except.ok []
  | (row_number, doc_row) :: rest =>
    match doc_row[sudocIdx]? with
    | none => Except.error WriteError.indexError
    | some v =>
      let sudoc_num := simplify_sudoc_number v
      match lookupA sudoc_num ws.sudoc_number_to_row_nums with
      | none => Except.error WriteError.lookupError
      | some row_nums =>
        match augmentRows ws sudocIdx rest with
        | Except.error e => Except.error e
        | Except.ok out => Except.ok ((doc_row ++ [toDec row_number, row_nums]) :: out)

/-- Embedding of the per-document body of write_matches_to_file: the rows
written for one scanned reference document — the captured header row (when
truthy) extended with the two new column names, then every augmented row of
interest. -/
def writeMatchesRows (ws : WeedingSet) (rd : SearcherReferenceDoc) :
    Except WriteError (List Row) :=
  let hdrRows : List Row :=
    match rd.headers with
    | none => []
    | some h => if h = [] then [] else [h ++ ["FDLP Row".toList, "SCU Row(s)".toList]]
  match augmentRows ws rd.doc.sudoc_number_column_index rd.rows_of_interest with
  | Except.error e => Except.error e
  | Except.ok dataRows => Except.ok (hdrRows ++ dataRows)

-- ------------------------------------------------------------------
-- writers.write_weeding_set_file_rows_not_matched
-- ------------------------------------------------------------------

/-- The nested write_out helper of write_weeding_set_file_rows_not_matched:
one chunk file's rows — the header row, then the buffered rows. -/
def writeOutFile (headers_row : Row) (rows_to_write : List Row) : List Row :=
  headers_row :: rows_to_write

/-- The row loop of write_weeding_set_file_rows_not_matched, with the trailing
flush of a nonempty buffer; each produced file is (file_index, its rows). -/
def notMatchedLoop (headers_row : Row) (max_rows : Nat) :
    List Row → Nat → List Row → List (Nat × List Row)
  | [], file_index, rows_to_write =>
    if rows_to_write.length > 0 then [(file_index, writeOutFile headers_row rows_to_write)]
    else []
  | row :: rest, file_index, rows_to_write =>
    if rows_to_write.length < max_rows - 1 then
      notMatchedLoop headers_row max_rows rest file_index (rows_to_write ++ [row])
    else
      (file_index, writeOutFile headers_row rows_to_write) ::
        notMatchedLoop headers_row max_rows rest (file_index + 1) []

/-- Embedding of writers.write_weeding_set_file_rows_not_matched: the chunk
files it writes, in order of increasing file index. -/
def write_weeding_set_file_rows_not_matched (weeding_set_rows_not_matched : List Row)
    (headers_row : Row) (start_index : Nat) (max_rows : Nat) : List (Nat × List Row) :=
  notMatchedLoop headers_row max_rows weeding_set_rows_not_matched start_index []

-- ------------------------------------------------------------------
-- Statement helpers and invariants
-- ------------------------------------------------------------------

/-- The elements of a list numbered consecutively from a starting number,
the shape of enumerate(reader, 2) over the content rows. -/
def numberFrom {α : Type} : Nat → List α → List (Nat × α)
  | _, [] => []
  | n, x :: xs => (n, x) :: numberFrom (n + 1) xs

/-- Structural invariant of a built WeedingSet: every member of the
sudoc-number set is a key of the number-to-row-numbers dict, and every stored
value is the comma-join of the decimal row numbers of rows present in
sudoc_row_num_to_row. -/
def WSInv (ws : WeedingSet) : Prop :=
  (∀ s ∈ ws.sudoc_numbers, lookupA s ws.sudoc_number_to_row_nums ≠ none) ∧
  (∀ p ∈ ws.sudoc_number_to_row_nums, ∃ ns : List Nat, ns ≠ [] ∧
    p.2 = joinWith [','] (ns.map toDec) ∧
    ∀ n ∈ ns, lookupA n ws.sudoc_row_num_to_row ≠ none)

/-- Invariant of a rows-of-interest dict: each recorded row still has its
classification-number cell, and its normalized value is a key of the index's
number-to-row-numbers dict. -/
def GoodRoi (ws : WeedingSet) (idx : Nat) (rois : List (Nat × Row)) : Prop :=
  ∀ p ∈ rois, ∃ v, p.2[idx]? = some v ∧
    lookupA (simplify_sudoc_number v) ws.sudoc_number_to_row_nums ≠ none

/-- Invariant of a searcher state over a built WeedingSet: the weeding set is
unchanged, the accumulated matched row numbers are keys of the index, and
every scanned document's rows of interest are good. -/
def SearcherInv (ws : WeedingSet) (s : FDLPSearcher) : Prop :=
  s.weeding_set = ws ∧
  (∀ x ∈ s.scu_sudoc_row_nums_for_matches, lookupA x ws.sudoc_row_num_to_row ≠ none) ∧
  (∀ rd ∈ s.reference_docs, GoodRoi ws rd.doc.sudoc_number_column_index rd.rows_of_interest)

-- ------------------------------------------------------------------
-- Concrete inputs for witnesses and counterexamples
-- ------------------------------------------------------------------

/-- The spec's duplicate-number scenario: header ["Document Number","Title"],
rows [["A 123","X"],["A123","Y"]]. -/
def exampleWeedingRows : List Row :=
  [["Document Number".toList, "Title".toList],
   ["A 123".toList, "X".toList],
   ["A123".toList, "Y".toList]]

/-- The WeedingSet built from exampleWeedingRows. -/
def wsExample : WeedingSet :=
  match buildWeedingSet exampleWeedingRows "Document Number".toList with
  | Except.ok ws => ws
  | Except.error _ => emptyWeedingSet

/-- A reference document configured with the empty string as its
classification-type filter, holding one row whose filter-column value differs
from the filter but whose classification number matches the example index. -/
def ctEmptyDoc : FDLPReferenceDoc :=
  { fileRows := [["X".toList, "A 123".toList]], skip_rows := 0,
    sudoc_number_column_index := 1, classification_type := some [],
    classification_type_column_index := 0, header_row_index := none }

/-- A reference document with no header row, holding one matching row. -/
def noHeaderDoc : FDLPReferenceDoc :=
  { fileRows := [["A 123".toList]], skip_rows := 0,
    sudoc_number_column_index := 0, classification_type := none,
    classification_type_column_index := 0, header_row_index := none }

/-- A reference document with a header row, a SuDoc type filter, one matching
row and one row rejected by the filter. -/
def headerDoc : FDLPReferenceDoc :=
  { fileRows := [["Num".toList, "Type".toList, "Class".toList],
                 ["x".toList, "SuDoc".toList, "A 123".toList],
                 ["y".toList, "Other".toList, "A 123".toList]],
    skip_rows := 1, sudoc_number_column_index := 2,
    classification_type := some "SuDoc".toList,
    classification_type_column_index := 1, header_row_index := some 0 }

/-- The searcher state after searching headerDoc against the example index. -/
def searchedHeaderDoc : FDLPSearcher :=
  match search_fdlp_references (mkSearcher wsExample) [headerDoc] with
  | Except.ok s => s
  | Except.error _ => mkSearcher wsExample

/-- The scanned form of headerDoc inside searchedHeaderDoc. -/
def headerDocScanned : SearcherReferenceDoc :=
  match searchedHeaderDoc.reference_docs with
  | [rd] => rd
  | _ => { doc := headerDoc, headers := none, rows_of_interest := [] }

-- ------------------------------------------------------------------
-- Theorems
-- ------------------------------------------------------------------

/-- The normalizer is exactly the filter keeping non-space characters. -/
theorem simplify_eq_filter (s : Cell) :
    simplify_sudoc_number s = s.filter (fun c => c != ' ') := by
  induction s with
  | nil => rfl
  | cons c cs ih =>
    by_cases h : c = ' ' <;> simp [simplify_sudoc_number, h, ih]

/-- The normalizer leaves a string without spaces unchanged. -/
theorem simplify_of_no_space (s : Cell) (h : ∀ c ∈ s, c ≠ ' ') :
    simplify_sudoc_number s = s := by
  rw [simplify_eq_filter]
  apply List.filter_eq_self.mpr
  intro c hc
  simpa using h c hc

/-- C6: simplify_sudoc_number removes every space character and performs no
other transformation (it is the subsequence of non-space characters), is
total, idempotent, its result contains no space, and it is the identity on
strings without spaces. -/
theorem C6_normalizer_removes_spaces (s : Cell) :
    simplify_sudoc_number s = s.filter (fun c => c != ' ') ∧
    simplify_sudoc_number (simplify_sudoc_number s) = simplify_sudoc_number s ∧
    (∀ c ∈ simplify_sudoc_number s, c ≠ ' ') ∧
    ((∀ c ∈ s, c ≠ ' ') → simplify_sudoc_number s = s) := by
  have h1 := simplify_eq_filter s
  have h3 : ∀ c ∈ simplify_sudoc_number s, c ≠ ' ' := by
    rw [h1]
    intro c hc
    have := List.mem_filter.mp hc
    simpa using this.2
  exact ⟨h1, simplify_of_no_space _ h3, h3, simplify_of_no_space s⟩

/-- C5: building the index from the duplicate-number example numbers the
content rows 2 and 3, preserves both rows, and stores the comma-joined row
numbers "2,3" for the shared normalized number "A123". -/
theorem C5_duplicate_rows_comma_joined :
    (buildWeedingSet exampleWeedingRows "Document Number".toList).map
        (fun ws => (ws.sudoc_row_num_to_row,
                    lookupA "A123".toList ws.sudoc_number_to_row_nums))
      = Except.ok ([(2, ["A 123".toList, "X".toList]), (3, ["A123".toList, "Y".toList])],
                   some "2,3".toList) := by decide

/-- C1 (code bug): the chunk writer drops the data row that arrives when the
buffer is full, so concatenating the chunk files' data rows does not
reproduce the unmatched partition: with max_rows = 2 the written rows are
[["a"]] although ["a"] and ["b"] were passed. -/
theorem C1_roundtrip_fails_row_dropped :
    ((write_weeding_set_file_rows_not_matched [["a".toList], ["b".toList]]
        ["H".toList] 1 2).map (fun f => f.2.drop 1)).flatten = [["a".toList]] ∧
    ([["a".toList]] : List Row) ≠ [["a".toList], ["b".toList]] := by decide

set_option maxRecDepth 4000 in
/-- C2 (code bug): for max_rows = 250 and 600 unmatched rows the writer
produces 3 files whose data-row counts are 249, 249 and 100 — not 102 — the
rows arriving as each buffer fills (the 250th and 500th) being dropped; each
file does carry one header row at its top. -/
theorem C2_chunk_counts_600 :
    ((write_weeding_set_file_rows_not_matched (List.replicate 600 (["r".toList] : Row))
        ["H".toList] 1 250).map
        (fun f => (f.1, f.2.head?, (f.2.drop 1).length)))
      = [(1, some (["H".toList] : Row), 249), (2, some (["H".toList] : Row), 249),
         (3, some (["H".toList] : Row), 100)] := by decide

/-- Resetting depends only on the weeding set: every other field is emptied. -/
theorem searcherReset_congr (s1 s2 : FDLPSearcher) (h : s1.weeding_set = s2.weeding_set) :
    searcherReset s1 = searcherReset s2 := by
  cases s1; cases s2
  simp only [searcherReset]
  simpa using h

/-- C9: the result of search_fdlp_references is a function only of the
searcher's weeding set and the documents passed to that call — two searchers
sharing a weeding set give identical results whatever their accumulated
state, and each equals the result from a freshly constructed searcher. -/
theorem C9_search_state_independent (s1 s2 : FDLPSearcher) (docs : List FDLPReferenceDoc)
    (h : s1.weeding_set = s2.weeding_set) :
    search_fdlp_references s1 docs = search_fdlp_references s2 docs ∧
    search_fdlp_references s1 docs =
      search_fdlp_references (mkSearcher s1.weeding_set) docs := by
  constructor
  · unfold search_fdlp_references
    rw [searcherReset_congr s1 s2 h]
  · unfold search_fdlp_references
    rw [searcherReset_congr s1 (mkSearcher s1.weeding_set) rfl]

/-- C9 witness: a searcher carrying stale accumulated state gives the same
search result as a fresh searcher over the same weeding set. -/
theorem C9_search_state_independent_witness :
    search_fdlp_references
        { weeding_set := wsExample, reference_docs := [],
          scu_sudoc_row_nums_for_matches := {99},
          scu_rows_not_matched := [["stale".toList]], scu_rows_matched := [] } [noHeaderDoc]
      = search_fdlp_references (mkSearcher wsExample) [noHeaderDoc] ∧
    search_fdlp_references
        { weeding_set := wsExample, reference_docs := [],
          scu_sudoc_row_nums_for_matches := {99},
          scu_rows_not_matched := [["stale".toList]], scu_rows_matched := [] } [noHeaderDoc]
      = search_fdlp_references (mkSearcher wsExample) [noHeaderDoc] := by
  have h := C9_search_state_independent
    { weeding_set := wsExample, reference_docs := [],
      scu_sudoc_row_nums_for_matches := {99},
      scu_rows_not_matched := [["stale".toList]], scu_rows_matched := [] }
    (mkSearcher wsExample) [noHeaderDoc] rfl
  exact ⟨h.1, h.2⟩

/-- list.index finds no position exactly when the value is absent. -/
theorem listIndex_eq_none_iff (name : Cell) (hdr : List Cell) :
    listIndex name hdr = none ↔ name ∉ hdr := by
  induction hdr with
  | nil => simp [listIndex]
  | cons c cs ih =>
    simp only [listIndex, List.mem_cons]
    by_cases h : c = name
    · simp [h]
    · rw [if_neg h]
      constructor
      · intro hmap hmem
        have hnone : listIndex name cs = none := by
          cases hx : listIndex name cs
          · rfl
          · rw [hx] at hmap
            simp at hmap
        rcases hmem with he | hm
        · exact h he.symm
        · exact (ih.mp hnone) hm
      · intro hmem
        have hncs : name ∉ cs := fun hm => hmem (Or.inr hm)
        rw [ih.mpr hncs]
        rfl

/-- With the column name present in the header row, one reading-loop step
never raises the schema error. -/
theorem weedingSetStep_no_schema (hdr : List Cell) (name : Cell) (idx rn : Nat) (row : Row)
    (ws : WeedingSet) (hidx : listIndex name hdr = some idx) :
    weedingSetStep hdr name rn row ws ≠ Except.error ReadError.schemaError := by
  unfold weedingSetStep
  rw [hidx]
  split
  · simp_all
  · split
    · simp
    · dsimp only
      split <;> simp

/-- With the column name present in the header row, the reading loop never
raises the schema error, whatever the rows and the accumulated state. -/
theorem weedingSetFold_no_schema (hdr : List Cell) (name : Cell) (idx : Nat)
    (hidx : listIndex name hdr = some idx) :
    ∀ (rows : List Row) (rn : Nat) (ws : WeedingSet),
      weedingSetFold hdr name rn rows ws ≠ Except.error ReadError.schemaError := by
  intro rows
  induction rows with
  | nil => intro rn ws; simp [weedingSetFold]
  | cons row rest ih =>
    intro rn ws
    simp only [weedingSetFold]
    cases hstep : weedingSetStep hdr name rn row ws with
    | error e =>
      have hns := weedingSetStep_no_schema hdr name idx rn row ws hidx
      rw [hstep] at hns
      simpa using hns
    | ok ws2 => simpa using ih (rn + 1) ws2

/-- C8 (amended): a missing classification-number column name makes building
the index fail with the schema error whenever at least one content row
exists (the per-row name lookup never runs on a file with no content rows,
so such a build succeeds vacuously); when the name is present the schema
error never occurs. -/
theorem C8_missing_column_schema_error (hdr : List Cell) (contentRows : List Row) (name : Cell) :
    (listIndex name hdr = none ↔ name ∉ hdr) ∧
    (name ∉ hdr → contentRows ≠ [] →
      buildWeedingSet (hdr :: contentRows) name = Except.error ReadError.schemaError) ∧
    (name ∈ hdr →
      buildWeedingSet (hdr :: contentRows) name ≠ Except.error ReadError.schemaError) := by
  refine ⟨listIndex_eq_none_iff name hdr, ?_, ?_⟩
  · intro habs hne
    have hnone : listIndex name hdr = none := (listIndex_eq_none_iff name hdr).mpr habs
    match contentRows, hne with
    | row :: rest, _ =>
      simp only [buildWeedingSet, weedingSetFold]
      unfold weedingSetStep
      rw [hnone]
  · intro hmem
    have hnn : listIndex name hdr ≠ none :=
      fun hn => ((listIndex_eq_none_iff name hdr).mp hn) hmem
    cases hidx : listIndex name hdr with
    | none => exact absurd hidx hnn
    | some idx =>
      simp only [buildWeedingSet]
      exact weedingSetFold_no_schema hdr name idx hidx contentRows 2 emptyWeedingSet

/-- C8 counterexample: a weeding-set file whose header lacks the configured
column name but which has no content rows builds successfully — the claimed
unconditional SchemaError does not occur. -/
theorem C8_no_content_rows_builds :
    ("Document Number".toList ∉ (["X".toList] : List Cell)) ∧
    buildWeedingSet [["X".toList]] "Document Number".toList = Except.ok emptyWeedingSet := by
  decide

/-- C3 (amended): for every non-null and nonempty classification-type filter
string, a content row (not the captured header row, past the skipped rows)
whose filter-column value is not string-equal to the filter is discarded: no
row of interest is recorded and the matched-row-number set is unchanged,
whatever the row's classification number. -/
theorem C3_nonempty_filter_discards (ws : WeedingSet) (rd : SearcherReferenceDoc)
    (matched : Finset Nat) (row_index : Nat) (row : Row) (ct v : Cell)
    (hct : rd.doc.classification_type = some ct) (hne : ct ≠ [])
    (hhdr : rd.doc.header_row_index ≠ some row_index)
    (hskip : rd.doc.skip_rows ≤ row_index)
    (hv : row[rd.doc.classification_type_column_index]? = some v)
    (hvne : v ≠ ct) :
    scanRow ws rd matched row_index row = Except.ok (rd, matched) := by
  unfold scanRow
  rw [if_neg hhdr, if_neg (by omega)]
  simp only [hct]
  rw [if_neg hne]
  simp [hv, hvne]

/-- C3 witness: the filtered-out row of headerDoc — type value "Other"
against filter "SuDoc" — is discarded even though its classification number
"A 123" normalizes to a key of the example index. -/
theorem C3_nonempty_filter_discards_witness :
    scanRow wsExample { doc := headerDoc, headers := none, rows_of_interest := [] } ∅ 2
        ["y".toList, "Other".toList, "A 123".toList]
      = Except.ok ({ doc := headerDoc, headers := none, rows_of_interest := [] }, ∅) :=
  C3_nonempty_filter_discards wsExample
    { doc := headerDoc, headers := none, rows_of_interest := [] } ∅ 2
    ["y".toList, "Other".toList, "A 123".toList] "SuDoc".toList "Other".toList
    rfl (by decide) (by decide) (by decide) rfl (by decide)

/-- C3 counterexample: with the empty string — non-null in Python — as the
configured filter, the truthiness test skips the filter entirely: the single
row of ctEmptyDoc has filter-column value "X" differing from the filter, yet
it is recorded as a row of interest and the matched set gains rows 2 and 3. -/
theorem C3_empty_filter_not_applied :
    (search_fdlp_references (mkSearcher wsExample) [ctEmptyDoc]).map
        (fun s => s.reference_docs.map (fun rd => rd.rows_of_interest))
      = Except.ok [[(0, ["X".toList, "A 123".toList])]] ∧
    (search_fdlp_references (mkSearcher wsExample) [ctEmptyDoc]).map
        (fun s => s.scu_sudoc_row_nums_for_matches)
      = Except.ok ({2, 3} : Finset Nat) := by
  constructor <;> decide

/-- Reading a dict after a write: the written key yields the new value, any
other key is untouched. -/
theorem lookupA_setA {K V : Type} [DecidableEq K] (k k2 : K) (v : V) (l : List (K × V)) :
    lookupA k2 (setA k v l) = if k2 = k then some v else lookupA k2 l := by
  induction l with
  | nil =>
    simp only [setA, lookupA]
    by_cases h : k2 = k
    · simp [h]
    · rw [if_neg (fun hc : k = k2 => h hc.symm), if_neg h]
  | cons p ps ih =>
    simp only [setA]
    by_cases hp : p.1 = k
    · rw [if_pos hp]
      by_cases hk : k2 = k
      · simp [lookupA, hk]
      · have hk2 : ¬ k = k2 := fun hc => hk hc.symm
        have hpk2 : ¬ p.1 = k2 := hp ▸ hk2
        simp [lookupA, hk, hk2, hpk2]
    · rw [if_neg hp]
      by_cases hpk2 : p.1 = k2
      · have hk : ¬ k2 = k := fun hc => hp (hpk2.trans hc)
        simp [lookupA, hpk2, hk]
      · simp [lookupA, hpk2, ih]

/-- A dict read misses exactly when no pair carries the key. -/
theorem lookupA_eq_none_iff {K V : Type} [DecidableEq K] (k : K) (l : List (K × V)) :
    lookupA k l = none ↔ ∀ p ∈ l, p.1 ≠ k := by
  induction l with
  | nil => simp [lookupA]
  | cons p ps ih =>
    by_cases h : p.1 = k
    · simp [lookupA, h]
    · simp [lookupA, h, ih]

/-- Writing a fresh key appends the pair at the end of the dict. -/
theorem setA_append_of_none {K V : Type} [DecidableEq K] (k : K) (v : V) (l : List (K × V))
    (h : lookupA k l = none) : setA k v l = l ++ [(k, v)] := by
  induction l with
  | nil => rfl
  | cons p ps ih =>
    have hne : p.1 ≠ k := ((lookupA_eq_none_iff k (p :: ps)).mp h) p (List.mem_cons_self p ps)
    have hps : lookupA k ps = none := by
      rw [lookupA_eq_none_iff] at h ⊢
      intro q hq
      exact h q (List.mem_cons_of_mem p hq)
    simp [setA, hne, ih hps]

/-- A successful reading-loop step records the content row under its row
number in sudoc_row_num_to_row. -/
theorem weedingSetStep_row_map (hdr : List Cell) (name : Cell) (rn : Nat) (row : Row)
    (ws ws2 : WeedingSet) (h : weedingSetStep hdr name rn row ws = Except.ok ws2) :
    ws2.sudoc_row_num_to_row = setA rn row ws.sudoc_row_num_to_row := by
  unfold weedingSetStep at h
  split at h
  · cases h
  · split at h
    · cases h
    · dsimp only at h
      split at h <;> (cases h; rfl)

/-- The reading loop over rows with all previously recorded row numbers
below the current one extends sudoc_row_num_to_row with the numbered rows. -/
theorem weedingSetFold_row_map (hdr : List Cell) (name : Cell) :
    ∀ (rows : List Row) (rn : Nat) (ws ws2 : WeedingSet),
      weedingSetFold hdr name rn rows ws = Except.ok ws2 →
      (∀ p ∈ ws.sudoc_row_num_to_row, p.1 < rn) →
      ws2.sudoc_row_num_to_row = ws.sudoc_row_num_to_row ++ numberFrom rn rows := by
  intro rows
  induction rows with
  | nil =>
    intro rn ws ws2 h hlt
    simp only [weedingSetFold] at h
    cases h
    simp [numberFrom]
  | cons row rest ih =>
    intro rn ws ws2 h hlt
    simp only [weedingSetFold] at h
    cases hstep : weedingSetStep hdr name rn row ws with
    | error e => rw [hstep] at h; cases h
    | ok wsMid =>
      rw [hstep] at h
      have hmid : wsMid.sudoc_row_num_to_row = ws.sudoc_row_num_to_row ++ [(rn, row)] := by
        rw [weedingSetStep_row_map hdr name rn row ws wsMid hstep]
        apply setA_append_of_none
        rw [lookupA_eq_none_iff]
        intro p hp
        exact Nat.ne_of_lt (hlt p hp)
      have hmidlt : ∀ p ∈ wsMid.sudoc_row_num_to_row, p.1 < rn + 1 := by
        rw [hmid]
        intro p hp
        rcases List.mem_append.mp hp with hl | hr
        · exact Nat.lt_succ_of_lt (hlt p hl)
        · simp at hr
          subst hr
          exact Nat.lt_succ_self rn
      have := ih (rn + 1) wsMid ws2 h hmidlt
      rw [this, hmid]
      simp [numberFrom]

/-- A built index's row map is exactly the content rows numbered from 2. -/
theorem buildWeedingSet_row_map (hdr : List Cell) (contentRows : List Row) (name : Cell)
    (ws : WeedingSet) (h : buildWeedingSet (hdr :: contentRows) name = Except.ok ws) :
    ws.sudoc_row_num_to_row = numberFrom 2 contentRows := by
  simp only [buildWeedingSet] at h
  have := weedingSetFold_row_map hdr name contentRows 2 emptyWeedingSet ws h
    (by intro p hp; simp [emptyWeedingSet] at hp)
  simpa [emptyWeedingSet] using this

/-- The separating fold appends the matched and unmatched rows, in order,
after whatever the accumulators already hold. -/
theorem foldl_separateStep (m : Finset Nat) :
    ∀ (l : List (Nat × Row)) (accM accU : List Row),
      List.foldl (separateStep m) (accM, accU) l =
        (accM ++ (l.filter (fun p => decide (p.1 ∈ m))).map Prod.snd,
         accU ++ (l.filter (fun p => !decide (p.1 ∈ m))).map Prod.snd) := by
  intro l
  induction l with
  | nil => intro accM accU; simp
  | cons p ps ih =>
    intro accM accU
    by_cases hm : p.1 ∈ m
    · simp [separateStep, hm, ih, List.filter_cons]
    · simp [separateStep, hm, ih, List.filter_cons]

/-- A Boolean predicate and its negation split a list's length. -/
theorem length_filter_add_length_filter_not {α : Type} (p : α → Bool) (l : List α) :
    (l.filter p).length + (l.filter (fun a => !(p a))).length = l.length := by
  induction l with
  | nil => rfl
  | cons a as ih =>
    cases hp : p a <;> simp [List.filter_cons, hp] <;> omega

/-- Numbering preserves length. -/
theorem numberFrom_length {α : Type} : ∀ (n : Nat) (l : List α),
    (numberFrom n l).length = l.length := by
  intro n l
  induction l generalizing n with
  | nil => rfl
  | cons x xs ih => simp [numberFrom, ih]

/-- C4: partitioning a built index over any matched set keeps each content
row in exactly one output — the matched rows are precisely the filter of the
numbered content rows whose number is in the set, the unmatched rows the
filter of the rest, both in original file order — and the lengths of the two
outputs sum to the content-row count. -/
theorem C4_partition_total_exclusive_ordered (hdr : List Cell) (contentRows : List Row)
    (name : Cell) (ws : WeedingSet) (matched : Finset Nat)
    (hbuild : buildWeedingSet (hdr :: contentRows) name = Except.ok ws) :
    (separateRows { mkSearcher ws with
        scu_sudoc_row_nums_for_matches := matched }).scu_rows_matched
        = ((numberFrom 2 contentRows).filter (fun p => decide (p.1 ∈ matched))).map Prod.snd ∧
    (separateRows { mkSearcher ws with
        scu_sudoc_row_nums_for_matches := matched }).scu_rows_not_matched
        = ((numberFrom 2 contentRows).filter (fun p => !decide (p.1 ∈ matched))).map Prod.snd ∧
    (separateRows { mkSearcher ws with
        scu_sudoc_row_nums_for_matches := matched }).scu_rows_matched.length
      + (separateRows { mkSearcher ws with
        scu_sudoc_row_nums_for_matches := matched }).scu_rows_not_matched.length
      = contentRows.length := by
  have hrm := buildWeedingSet_row_map hdr contentRows name ws hbuild
  have hsep := foldl_separateStep matched (numberFrom 2 contentRows) [] []
  refine ⟨?_, ?_, ?_⟩
  · simp [separateRows, mkSearcher, hrm, hsep]
  · simp [separateRows, mkSearcher, hrm, hsep]
  · simp only [separateRows, mkSearcher, hrm, hsep]
    simp only [List.nil_append, List.length_map]
    rw [length_filter_add_length_filter_not (fun p => decide (p.1 ∈ matched))
      (numberFrom 2 contentRows)]
    exact numberFrom_length 2 contentRows

/-- C4 witness: partitioning the two-row example index with matched set {2}
sends row 2 to the matched output and row 3 to the unmatched output, and the
output lengths sum to 2. -/
theorem C4_partition_total_exclusive_ordered_witness :
    (separateRows { mkSearcher wsExample with
        scu_sudoc_row_nums_for_matches := ({2} : Finset Nat) }).scu_rows_matched
        = ((numberFrom 2 [["A 123".toList, "X".toList], ["A123".toList, "Y".toList]]).filter
            (fun p => decide (p.1 ∈ ({2} : Finset Nat)))).map Prod.snd ∧
    (separateRows { mkSearcher wsExample with
        scu_sudoc_row_nums_for_matches := ({2} : Finset Nat) }).scu_rows_not_matched
        = ((numberFrom 2 [["A 123".toList, "X".toList], ["A123".toList, "Y".toList]]).filter
            (fun p => !decide (p.1 ∈ ({2} : Finset Nat)))).map Prod.snd ∧
    (separateRows { mkSearcher wsExample with
        scu_sudoc_row_nums_for_matches := ({2} : Finset Nat) }).scu_rows_matched.length
      + (separateRows { mkSearcher wsExample with
        scu_sudoc_row_nums_for_matches := ({2} : Finset Nat) }).scu_rows_not_matched.length
      = ([["A 123".toList, "X".toList], ["A123".toList, "Y".toList]] : List Row).length :=
  C4_partition_total_exclusive_ordered ["Document Number".toList, "Title".toList]
    [["A 123".toList, "X".toList], ["A123".toList, "Y".toList]]
    "Document Number".toList wsExample {2} (by decide)

/-- The decimal printer's core ignores the fuel once it covers the value. -/
theorem toDecCore_fuel_eq (n : Nat) : ∀ (f1 f2 : Nat), n < f1 → n < f2 →
    toDecCore f1 n = toDecCore f2 n := by
  induction n using Nat.strong_induction_on with
  | _ n ih =>
    intro f1 f2 h1 h2
    cases f1 with
    | zero => omega
    | succ f1 =>
      cases f2 with
      | zero => omega
      | succ f2 =>
        simp only [toDecCore]
        by_cases h : n < 10
        · simp [h]
        · rw [if_neg h, if_neg h]
          have hdiv : n / 10 < n := Nat.div_lt_self (by omega) (by omega)
          rw [ih (n / 10) hdiv f1 f2 (by omega) (by omega)]

/-- Printing a one-digit value. -/
theorem toDec_lt (n : Nat) (h : n < 10) : toDec n = [digitChar n] := by
  simp [toDec, toDecCore, h]

/-- Printing a multi-digit value: the leading digits, then the last digit. -/
theorem toDec_ge (n : Nat) (h : 10 ≤ n) : toDec n = toDec (n / 10) ++ [digitChar (n % 10)] := by
  have hdiv : n / 10 < n := Nat.div_lt_self (by omega) (by omega)
  simp only [toDec, toDecCore]
  rw [if_neg (by omega)]
  rw [toDecCore_fuel_eq (n / 10) n (n / 10 + 1) (by omega) (by omega)]
  rfl

/-- A digit character parses back to its value. -/
theorem parseDigit_digitChar (d : Nat) (h : d < 10) : parseDigit (digitChar d) = some d := by
  interval_cases d <;> decide

/-- Digit characters are not the comma. -/
theorem digitChar_ne_comma (d : Nat) (h : d < 10) : digitChar d ≠ ',' := by
  interval_cases d <;> decide

/-- A printed number is never the empty string. -/
theorem toDec_ne_nil (n : Nat) : toDec n ≠ [] := by
  by_cases h : n < 10
  · rw [toDec_lt n h]; simp
  · rw [toDec_ge n (by omega)]; simp

/-- A printed number contains no comma. -/
theorem comma_not_mem_toDec (n : Nat) : ',' ∉ toDec n := by
  induction n using Nat.strong_induction_on with
  | _ n ih =>
    by_cases h : n < 10
    · rw [toDec_lt n h]
      simp [Ne.symm (digitChar_ne_comma n h)]
    · rw [toDec_ge n (by omega)]
      have hdiv : n / 10 < n := Nat.div_lt_self (by omega) (by omega)
      simp only [List.mem_append, List.mem_singleton]
      push_neg
      exact ⟨ih (n / 10) hdiv, Ne.symm (digitChar_ne_comma (n % 10) (Nat.mod_lt n (by omega)))⟩

/-- The parser core distributes over appending. -/
theorem parseDecCore_append (xs ys : List Char) : ∀ acc : Nat,
    parseDecCore acc (xs ++ ys) =
      match parseDecCore acc xs with
      | none => none
      | some a => parseDecCore a ys := by
  induction xs with
  | nil => intro acc; simp [parseDecCore]
  | cons c cs ih =>
    intro acc
    simp only [List.cons_append, parseDecCore]
    cases hp : parseDigit c with
    | none => rfl
    | some d => exact ih _

/-- The parser core undoes the printer, shifting the accumulator by the
printed length. -/
theorem parseDecCore_toDec (n : Nat) : ∀ acc : Nat,
    parseDecCore acc (toDec n) = some (acc * 10 ^ (toDec n).length + n) := by
  induction n using Nat.strong_induction_on with
  | _ n ih =>
    intro acc
    by_cases h : n < 10
    · rw [toDec_lt n h]
      simp [parseDecCore, parseDigit_digitChar n h]
    · have h10 : 10 ≤ n := by omega
      have hdiv : n / 10 < n := Nat.div_lt_self (by omega) (by omega)
      rw [toDec_ge n h10, parseDecCore_append, ih (n / 10) hdiv acc]
      simp only [parseDecCore, parseDigit_digitChar (n % 10) (Nat.mod_lt n (by omega))]
      rw [List.length_append, List.length_singleton, pow_succ]
      generalize (10 : Nat) ^ (toDec (n / 10)).length = X
      congr 1
      have hexp : acc * (X * 10) = acc * X * 10 := (Nat.mul_assoc acc X 10).symm
      rw [hexp, Nat.add_mul]
      omega

/-- int(str(n)) = n: the stored decimal fragments parse back to their values. -/
theorem parseDec_toDec (n : Nat) : parseDec (toDec n) = some n := by
  cases hx : toDec n with
  | nil => exact absurd hx (toDec_ne_nil n)
  | cons c cs =>
    have hcore := parseDecCore_toDec n 0
    rw [hx] at hcore
    simp only [parseDec]
    simpa using hcore

/-- Splitting a separator-free string yields that one fragment. -/
theorem splitOnChar_no_sep (sep : Char) : ∀ xs : List Char, sep ∉ xs →
    splitOnChar sep xs = [xs] := by
  intro xs
  induction xs with
  | nil => intro _; rfl
  | cons c cs ih =>
    intro h
    have hc : c ≠ sep := fun hc => h (hc ▸ List.mem_cons_self c cs)
    have hcs : sep ∉ cs := fun hm => h (List.mem_cons_of_mem c hm)
    simp only [splitOnChar, if_neg hc, ih hcs]

/-- Splitting past a separator-free head fragment. -/
theorem splitOnChar_append_sep (sep : Char) : ∀ (xs ys : List Char), sep ∉ xs →
    splitOnChar sep (xs ++ sep :: ys) = xs :: splitOnChar sep ys := by
  intro xs
  induction xs with
  | nil =>
    intro ys _
    simp [splitOnChar]
  | cons c cs ih =>
    intro ys h
    have hc : c ≠ sep := fun hc => h (hc ▸ List.mem_cons_self c cs)
    have hcs : sep ∉ cs := fun hm => h (List.mem_cons_of_mem c hm)
    simp only [List.cons_append, splitOnChar, if_neg hc, List.append_eq, ih ys hcs]

/-- Splitting undoes joining when no fragment contains the separator. -/
theorem splitOnChar_joinWith (sep : Char) : ∀ xs : List (List Char), xs ≠ [] →
    (∀ x ∈ xs, sep ∉ x) → splitOnChar sep (joinWith [sep] xs) = xs := by
  intro xs
  induction xs with
  | nil => intro h _; exact absurd rfl h
  | cons x rest ih =>
    intro _ hsep
    cases rest with
    | nil =>
      simp only [joinWith]
      exact splitOnChar_no_sep sep x (hsep x (List.mem_cons_self x []))
    | cons y ys =>
      have hjoin : joinWith [sep] (x :: y :: ys) = x ++ sep :: joinWith [sep] (y :: ys) := by
        simp [joinWith]
      rw [hjoin, splitOnChar_append_sep sep x (joinWith [sep] (y :: ys))
        (hsep x (List.mem_cons_self x (y :: ys)))]
      rw [ih (by simp) (fun z hz => hsep z (List.mem_cons_of_mem x hz))]

/-- Joining one more fragment at the end. -/
theorem joinWith_append_single (sep : List Char) : ∀ (xs : List (List Char)) (y : List Char),
    xs ≠ [] → joinWith sep (xs ++ [y]) = joinWith sep xs ++ sep ++ y := by
  intro xs
  induction xs with
  | nil => intro y h; exact absurd rfl h
  | cons x rest ih =>
    intro y _
    cases rest with
    | nil => simp [joinWith]
    | cons z zs =>
      have h1 : joinWith sep ((x :: z :: zs) ++ [y]) =
          x ++ sep ++ joinWith sep ((z :: zs) ++ [y]) := by
        simp [joinWith]
      rw [h1, ih y (by simp)]
      simp [joinWith, List.append_assoc]

/-- Members of a dict after a write: the written pair or an old pair. -/
theorem mem_setA {K V : Type} [DecidableEq K] (k : K) (v : V) :
    ∀ (l : List (K × V)) (p : K × V), p ∈ setA k v l → p = (k, v) ∨ p ∈ l := by
  intro l
  induction l with
  | nil =>
    intro p hp
    simp [setA] at hp
    exact Or.inl hp
  | cons q qs ih =>
    intro p hp
    by_cases hq : q.1 = k
    · rw [setA, if_pos hq] at hp
      rcases List.mem_cons.mp hp with h1 | h2
      · exact Or.inl h1
      · exact Or.inr (List.mem_cons_of_mem q h2)
    · rw [setA, if_neg hq] at hp
      rcases List.mem_cons.mp hp with h1 | h2
      · exact Or.inr (h1 ▸ List.mem_cons_self q qs)
      · rcases ih p h2 with h3 | h4
        · exact Or.inl h3
        · exact Or.inr (List.mem_cons_of_mem q h4)

/-- A successful dict read exhibits a member with that key and value. -/
theorem lookupA_mem {K V : Type} [DecidableEq K] (k : K) (v : V) :
    ∀ l : List (K × V), lookupA k l = some v → (k, v) ∈ l := by
  intro l
  induction l with
  | nil => intro h; cases h
  | cons p ps ih =>
    intro h
    by_cases hp : p.1 = k
    · rw [lookupA, if_pos hp] at h
      cases h
      have hpe : (k, p.2) = p := by rw [← hp]
      rw [hpe]
      exact List.mem_cons_self p ps
    · rw [lookupA, if_neg hp] at h
      exact List.mem_cons_of_mem p (ih h)

/-- The matched-set loop over printed fragments always succeeds and inserts
exactly the printed numbers. -/
theorem parseRowNums_map_toDec : ∀ (ns : List Nat) (matched : Finset Nat),
    parseRowNums (ns.map toDec) matched =
      Except.ok (ns.foldl (fun acc n => insert n acc) matched) := by
  intro ns
  induction ns with
  | nil => intro matched; rfl
  | cons n rest ih =>
    intro matched
    simp only [List.map_cons, parseRowNums, parseDec_toDec n, List.foldl_cons]
    exact ih (insert n matched)

/-- Membership after folding insertions. -/
theorem mem_foldl_insert : ∀ (ns : List Nat) (matched : Finset Nat) (x : Nat),
    x ∈ ns.foldl (fun acc n => insert n acc) matched ↔ x ∈ matched ∨ x ∈ ns := by
  intro ns
  induction ns with
  | nil => intro matched x; simp
  | cons n rest ih =>
    intro matched x
    simp only [List.foldl_cons, ih, Finset.mem_insert, List.mem_cons]
    tauto

/-- The empty weeding set satisfies the index invariant. -/
theorem wsInv_empty : WSInv emptyWeedingSet := by
  constructor
  · intro s hs
    simp [emptyWeedingSet] at hs
  · intro p hp
    simp [emptyWeedingSet] at hp

/-- One reading-loop step preserves the index invariant. -/
theorem weedingSetStep_inv (hdr : List Cell) (name : Cell) (rn : Nat) (row : Row)
    (ws ws2 : WeedingSet) (h : weedingSetStep hdr name rn row ws = Except.ok ws2)
    (hinv : WSInv ws) : WSInv ws2 := by
  unfold weedingSetStep at h
  split at h
  · cases h
  · split at h
    · cases h
    · dsimp only at h
      rename_i idx hidx sudoc_number hget
      split at h
      all_goals rename_i hlook
      all_goals cases h
      -- fresh-key branch and existing-key branch share most of the argument
      · constructor
        · intro s hs
          simp only [Finset.mem_insert] at hs
          rw [lookupA_setA]
          rcases hs with hs | hs
          · rw [if_pos hs]
            simp
          · by_cases he : s = simplify_sudoc_number sudoc_number
            · rw [if_pos he]; simp
            · rw [if_neg he]
              exact hinv.1 s hs
        · intro p hp
          rcases mem_setA _ _ _ p hp with hnew | hold
          · refine ⟨[rn], by simp, ?_, ?_⟩
            · rw [hnew]
              simp [joinWith]
            · intro n hn
              simp at hn
              rw [hn, lookupA_setA]
              simp
          · obtain ⟨ns, hne, hval, hlk⟩ := hinv.2 p hold
            refine ⟨ns, hne, hval, ?_⟩
            intro n hn
            rw [lookupA_setA]
            by_cases hrn : n = rn
            · rw [if_pos hrn]; simp
            · rw [if_neg hrn]
              exact hlk n hn
      · constructor
        · intro s hs
          simp only [Finset.mem_insert] at hs
          rw [lookupA_setA]
          rcases hs with hs | hs
          · rw [if_pos hs]
            simp
          · by_cases he : s = simplify_sudoc_number sudoc_number
            · rw [if_pos he]; simp
            · rw [if_neg he]
              exact hinv.1 s hs
        · intro p hp
          rcases mem_setA _ _ _ p hp with hnew | hold
          · rename_i existing_rows
            obtain ⟨ns, hne, hval, hlk⟩ := hinv.2 (simplify_sudoc_number sudoc_number,
              existing_rows) (lookupA_mem _ _ _ hlook)
            refine ⟨ns ++ [rn], by simp, ?_, ?_⟩
            · rw [hnew]
              simp only [List.map_append, List.map_cons, List.map_nil]
              rw [joinWith_append_single [','] (ns.map toDec) (toDec rn) (by
                intro hc
                exact hne (List.map_eq_nil_iff.mp hc))]
              simp only at hval
              rw [hval]
              simp
            · intro n hn
              rw [lookupA_setA]
              by_cases hrn : n = rn
              · rw [if_pos hrn]; simp
              · rw [if_neg hrn]
                rcases List.mem_append.mp hn with hl | hr
                · exact hlk n hl
                · simp at hr
                  exact absurd hr hrn
          · obtain ⟨ns, hne, hval, hlk⟩ := hinv.2 p hold
            refine ⟨ns, hne, hval, ?_⟩
            intro n hn
            rw [lookupA_setA]
            by_cases hrn : n = rn
            · rw [if_pos hrn]; simp
            · rw [if_neg hrn]
              exact hlk n hn

/-- The reading loop preserves the index invariant. -/
theorem weedingSetFold_inv (hdr : List Cell) (name : Cell) :
    ∀ (rows : List Row) (rn : Nat) (ws ws2 : WeedingSet),
      weedingSetFold hdr name rn rows ws = Except.ok ws2 → WSInv ws → WSInv ws2 := by
  intro rows
  induction rows with
  | nil =>
    intro rn ws ws2 h hinv
    simp only [weedingSetFold] at h
    cases h
    exact hinv
  | cons row rest ih =>
    intro rn ws ws2 h hinv
    simp only [weedingSetFold] at h
    cases hstep : weedingSetStep hdr name rn row ws with
    | error e => rw [hstep] at h; cases h
    | ok wsMid =>
      rw [hstep] at h
      exact ih (rn + 1) wsMid ws2 h (weedingSetStep_inv hdr name rn row ws wsMid hstep hinv)

/-- A built weeding set satisfies the index invariant. -/
theorem buildWeedingSet_inv (fileRows : List Row) (name : Cell) (ws : WeedingSet)
    (h : buildWeedingSet fileRows name = Except.ok ws) : WSInv ws := by
  cases fileRows with
  | nil => cases h
  | cons hdr rest =>
    simp only [buildWeedingSet] at h
    exact weedingSetFold_inv hdr name rest 2 emptyWeedingSet ws h wsInv_empty

/-- One scanning step over a built index: any error is the row-access
IndexError (never the key error, never the int-parse FormatError), and a
successful step keeps the document, only adds index row numbers to the
matched set, and preserves goodness of the rows of interest. -/
theorem scanRow_cases (ws : WeedingSet) (hinv : WSInv ws) (rd : SearcherReferenceDoc)
    (matched : Finset Nat) (row_index : Nat) (row : Row) :
    (∀ e, scanRow ws rd matched row_index row = Except.error e → e = ScanError.indexError) ∧
    (∀ rd2 m2, scanRow ws rd matched row_index row = Except.ok (rd2, m2) →
      rd2.doc = rd.doc ∧
      (∀ x ∈ m2, x ∈ matched ∨ lookupA x ws.sudoc_row_num_to_row ≠ none) ∧
      (GoodRoi ws rd.doc.sudoc_number_column_index rd.rows_of_interest →
        GoodRoi ws rd2.doc.sudoc_number_column_index rd2.rows_of_interest)) := by
  unfold scanRow
  split
  · refine ⟨fun e he => (nomatch he), fun rd2 m2 hok => ?_⟩
    cases hok
    exact ⟨rfl, fun x hx => Or.inl hx, fun hg => hg⟩
  · split
    · refine ⟨fun e he => (nomatch he), fun rd2 m2 hok => ?_⟩
      cases hok
      exact ⟨rfl, fun x hx => Or.inl hx, fun hg => hg⟩
    · dsimp only
      split
      · rename_i e heq
        have he_ix : e = ScanError.indexError := by
          split at heq
          · cases heq
          · split at heq
            · cases heq
            · split at heq
              · cases heq; rfl
              · cases heq
        constructor
        · intro e2 he2
          cases he2
          exact he_ix
        · intro rd2 m2 hok
          cases hok
      · refine ⟨fun e he => (nomatch he), fun rd2 m2 hok => ?_⟩
        cases hok
        exact ⟨rfl, fun x hx => Or.inl hx, fun hg => hg⟩
      · split
        · constructor
          · intro e he
            cases he
            rfl
          · intro rd2 m2 hok
            cases hok
        · rename_i num hget
          split
          · rename_i hmem
            cases hlook : lookupA (simplify_sudoc_number num) ws.sudoc_number_to_row_nums with
            | none => exact absurd hlook (hinv.1 _ hmem)
            | some str =>
              obtain ⟨ns, hnsne, hval, hlk⟩ := hinv.2 _ (lookupA_mem _ _ _ hlook)
              have hsplit : splitOnChar ',' str = ns.map toDec := by
                have hv : str = joinWith [','] (ns.map toDec) := hval
                rw [hv]
                refine splitOnChar_joinWith ',' (ns.map toDec) (by simpa using hnsne) ?_
                intro x hx
                obtain ⟨n, hn, rfl⟩ := List.mem_map.mp hx
                exact comma_not_mem_toDec n
              have hparse : parseRowNums (splitOnChar ',' str) matched
                  = Except.ok (ns.foldl (fun acc n => insert n acc) matched) := by
                rw [hsplit]
                exact parseRowNums_map_toDec ns matched
              dsimp only
              rw [hparse]
              constructor
              · intro e he
                cases he
              · intro rd2 m2 hok
                cases hok
                refine ⟨rfl, ?_, ?_⟩
                · intro x hx
                  rcases (mem_foldl_insert ns matched x).mp hx with hm | hns
                  · exact Or.inl hm
                  · exact Or.inr (hlk x hns)
                · intro hg
                  unfold GoodRoi at hg ⊢
                  intro p hp
                  rcases mem_setA _ _ _ p hp with hnew | hold
                  · refine ⟨num, ?_, ?_⟩
                    · rw [hnew]
                      exact hget
                    · rw [hlook]
                      simp
                  · exact hg p hold
          · refine ⟨fun e he => (nomatch he), fun rd2 m2 hok => ?_⟩
            cases hok
            exact ⟨rfl, fun x hx => Or.inl hx, fun hg => hg⟩

/-- The scanning loop over a built index lifts scanRow_cases to a whole
document's rows. -/
theorem scanRows_cases (ws : WeedingSet) (hinv : WSInv ws) :
    ∀ (rows : List Row) (row_index : Nat) (rd : SearcherReferenceDoc) (matched : Finset Nat),
      (∀ e, scanRows ws rows row_index rd matched = Except.error e →
        e = ScanError.indexError) ∧
      (∀ rd2 m2, scanRows ws rows row_index rd matched = Except.ok (rd2, m2) →
        rd2.doc = rd.doc ∧
        (∀ x ∈ m2, x ∈ matched ∨ lookupA x ws.sudoc_row_num_to_row ≠ none) ∧
        (GoodRoi ws rd.doc.sudoc_number_column_index rd.rows_of_interest →
          GoodRoi ws rd2.doc.sudoc_number_column_index rd2.rows_of_interest)) := by
  intro rows
  induction rows with
  | nil =>
    intro row_index rd matched
    constructor
    · intro e he
      simp only [scanRows] at he
      cases he
    · intro rd2 m2 hok
      simp only [scanRows] at hok
      cases hok
      exact ⟨rfl, fun x hx => Or.inl hx, fun hg => hg⟩
  | cons row rest ih =>
    intro row_index rd matched
    simp only [scanRows]
    cases hstep : scanRow ws rd matched row_index row with
    | error e =>
      constructor
      · intro e2 he2
        cases he2
        exact (scanRow_cases ws hinv rd matched row_index row).1 e hstep
      · intro rd2 m2 hok
        cases hok
    | ok pr =>
      obtain ⟨rdMid, mMid⟩ := pr
      have hmid := (scanRow_cases ws hinv rd matched row_index row).2 rdMid mMid hstep
      have hrest := ih (row_index + 1) rdMid mMid
      constructor
      · exact hrest.1
      · intro rd2 m2 hok
        have h2 := hrest.2 rd2 m2 hok
        refine ⟨h2.1.trans hmid.1, ?_, ?_⟩
        · intro x hx
          rcases h2.2.1 x hx with hm | hk
          · rcases hmid.2.1 x hm with hm2 | hk2
            · exact Or.inl hm2
            · exact Or.inr hk2
          · exact Or.inr hk
        · intro hg
          exact h2.2.2 (hmid.2.2 hg)

/-- Reading one reference document preserves the searcher invariant; any
error is the IndexError. -/
theorem readFromFile_inv (ws : WeedingSet) (hinv : WSInv ws) (s : FDLPSearcher)
    (doc : FDLPReferenceDoc) (hs : SearcherInv ws s) :
    (∀ e, readFromFile s doc = Except.error e → e = ScanError.indexError) ∧
    (∀ s2, readFromFile s doc = Except.ok s2 → SearcherInv ws s2) := by
  unfold readFromFile
  dsimp only
  cases hscan : scanRows s.weeding_set doc.fileRows 0
      { doc := doc, headers := none, rows_of_interest := [] }
      s.scu_sudoc_row_nums_for_matches with
  | error e =>
    rw [hs.1] at hscan
    constructor
    · intro e2 he2
      cases he2
      exact (scanRows_cases ws hinv doc.fileRows 0 _ _).1 e hscan
    · intro s2 hok
      cases hok
  | ok pr =>
    obtain ⟨rd2, m2⟩ := pr
    rw [hs.1] at hscan
    have h2 := (scanRows_cases ws hinv doc.fileRows 0 _ _).2 rd2 m2 hscan
    constructor
    · intro e he
      cases he
    · intro s2 hok
      cases hok
      refine ⟨hs.1, ?_, ?_⟩
      · intro x hx
        rcases h2.2.1 x hx with hm | hk
        · exact hs.2.1 x hm
        · exact hk
      · intro rd hrd
        rcases List.mem_append.mp hrd with hold | hnew
        · exact hs.2.2 rd hold
        · simp only [List.mem_singleton] at hnew
          subst hnew
          have hempty : GoodRoi ws doc.sudoc_number_column_index [] := by
            intro p hp
            cases hp
          exact h2.2.2 hempty

/-- Reading a list of reference documents preserves the searcher invariant;
any error is the IndexError. -/
theorem readAll_inv (ws : WeedingSet) (hinv : WSInv ws) :
    ∀ (docs : List FDLPReferenceDoc) (s : FDLPSearcher), SearcherInv ws s →
      (∀ e, readAll s docs = Except.error e → e = ScanError.indexError) ∧
      (∀ s2, readAll s docs = Except.ok s2 → SearcherInv ws s2) := by
  intro docs
  induction docs with
  | nil =>
    intro s hs
    constructor
    · intro e he
      simp only [readAll] at he
      cases he
    · intro s2 hok
      simp only [readAll] at hok
      cases hok
      exact hs
  | cons d ds ih =>
    intro s hs
    simp only [readAll]
    cases hread : readFromFile s d with
    | error e =>
      constructor
      · intro e2 he2
        cases he2
        exact (readFromFile_inv ws hinv s d hs).1 e hread
      · intro s2 hok
        cases hok
    | ok sMid =>
      exact ih sMid ((readFromFile_inv ws hinv s d hs).2 sMid hread)

/-- A whole search over a built index: any error is the IndexError (so
neither FormatError nor KeyError is reachable), and a successful search
satisfies the searcher invariant with the weeding set unchanged. -/
theorem search_fdlp_inv (ws : WeedingSet) (hinv : WSInv ws) (s : FDLPSearcher)
    (hws : s.weeding_set = ws) (docs : List FDLPReferenceDoc) :
    (∀ e, search_fdlp_references s docs = Except.error e → e = ScanError.indexError) ∧
    (∀ s2, search_fdlp_references s docs = Except.ok s2 →
      SearcherInv ws s2 ∧ s2.weeding_set = ws) := by
  unfold search_fdlp_references
  have hreset : SearcherInv ws (searcherReset s) := by
    refine ⟨hws, ?_, ?_⟩
    · intro x hx
      simp [searcherReset] at hx
    · intro rd hrd
      simp [searcherReset] at hrd
  cases hra : readAll (searcherReset s) docs with
  | error e =>
    constructor
    · intro e2 he2
      cases he2
      exact (readAll_inv ws hinv docs (searcherReset s) hreset).1 e hra
    · intro s2 hok
      cases hok
  | ok s3 =>
    have h3 := (readAll_inv ws hinv docs (searcherReset s) hreset).2 s3 hra
    constructor
    · intro e he
      cases he
    · intro s2 hok
      cases hok
      exact ⟨⟨h3.1, h3.2.1, h3.2.2⟩, h3.1⟩

/-- C10: in a built index every comma-separated fragment of every stored
row-numbers value parses as an integer that is a key of the row-number map;
consequently a search never fails with the int-parse FormatError, and the
accumulated matched-row-number set of a successful search holds only keys of
the index's row map. -/
theorem C10_fragments_parse_to_index_keys (fileRows : List Row) (name : Cell)
    (ws : WeedingSet) (hbuild : buildWeedingSet fileRows name = Except.ok ws) :
    (∀ p ∈ ws.sudoc_number_to_row_nums, ∀ frag ∈ splitOnChar ',' p.2,
      ∃ n, parseDec frag = some n ∧ lookupA n ws.sudoc_row_num_to_row ≠ none) ∧
    (∀ s : FDLPSearcher, s.weeding_set = ws → ∀ docs,
      search_fdlp_references s docs ≠ Except.error ScanError.formatError) ∧
    (∀ s : FDLPSearcher, s.weeding_set = ws → ∀ docs s2,
      search_fdlp_references s docs = Except.ok s2 →
      ∀ x ∈ s2.scu_sudoc_row_nums_for_matches,
        lookupA x ws.sudoc_row_num_to_row ≠ none) := by
  have hinv := buildWeedingSet_inv fileRows name ws hbuild
  refine ⟨?_, ?_, ?_⟩
  · intro p hp frag hfrag
    obtain ⟨ns, hne, hval, hlk⟩ := hinv.2 p hp
    rw [hval] at hfrag
    rw [splitOnChar_joinWith ',' (ns.map toDec) (by simpa using hne)
      (fun x hx => by
        obtain ⟨n, hn, rfl⟩ := List.mem_map.mp hx
        exact comma_not_mem_toDec n)] at hfrag
    obtain ⟨n, hn, rfl⟩ := List.mem_map.mp hfrag
    exact ⟨n, parseDec_toDec n, hlk n hn⟩
  · intro s hws docs hcontra
    have := (search_fdlp_inv ws hinv s hws docs).1 ScanError.formatError hcontra
    cases this
  · intro s hws docs s2 hok
    exact ((search_fdlp_inv ws hinv s hws docs).2 s2 hok).1.2.1

/-- C10 witness: the invariant instantiated on the two-row example index. -/
theorem C10_fragments_parse_to_index_keys_witness :
    (∀ p ∈ wsExample.sudoc_number_to_row_nums, ∀ frag ∈ splitOnChar ',' p.2,
      ∃ n, parseDec frag = some n ∧ lookupA n wsExample.sudoc_row_num_to_row ≠ none) ∧
    (∀ s : FDLPSearcher, s.weeding_set = wsExample → ∀ docs,
      search_fdlp_references s docs ≠ Except.error ScanError.formatError) ∧
    (∀ s : FDLPSearcher, s.weeding_set = wsExample → ∀ docs s2,
      search_fdlp_references s docs = Except.ok s2 →
      ∀ x ∈ s2.scu_sudoc_row_nums_for_matches,
        lookupA x wsExample.sudoc_row_num_to_row ≠ none) :=
  C10_fragments_parse_to_index_keys exampleWeedingRows "Document Number".toList wsExample
    (by decide)

/-- Augmenting good rows of interest succeeds, appending to each row exactly
its decimal row number and the looked-up comma-joined weeding-set row
numbers. -/
theorem augmentRows_of_good (ws : WeedingSet) (sudocIdx : Nat) :
    ∀ rois : List (Nat × Row), GoodRoi ws sudocIdx rois →
      ∃ dataRows : List Row,
        augmentRows ws sudocIdx rois = Except.ok dataRows ∧
        List.Forall₂ (fun (p : Nat × Row) (out : Row) => ∃ v rns,
          p.2[sudocIdx]? = some v ∧
          lookupA (simplify_sudoc_number v) ws.sudoc_number_to_row_nums = some rns ∧
          out = p.2 ++ [toDec p.1, rns]) rois dataRows := by
  intro rois
  induction rois with
  | nil =>
    intro _
    exact ⟨[], rfl, List.Forall₂.nil⟩
  | cons p rest ih =>
    intro hg
    obtain ⟨rn, prow⟩ := p
    obtain ⟨v, hv, hlk⟩ := hg (rn, prow) (List.mem_cons_self _ _)
    cases hlook : lookupA (simplify_sudoc_number v) ws.sudoc_number_to_row_nums with
    | none => exact absurd hlook hlk
    | some rns =>
      obtain ⟨dataRows, hrec, hfa⟩ := ih (fun q hq => hg q (List.mem_cons_of_mem _ hq))
      refine ⟨(prow ++ [toDec rn, rns]) :: dataRows, ?_, ?_⟩
      · simp only [augmentRows]
        have hv2 : prow[sudocIdx]? = some v := hv
        rw [hv2]
        dsimp only
        rw [hlook]
        dsimp only
        rw [hrec]
      · exact List.Forall₂.cons ⟨v, rns, hv, hlook, rfl⟩ hfa

/-- When every recorded row still has its classification-number cell but some
row's normalized value is absent from the index's mapping, augmenting fails
with the lookup error. -/
theorem augmentRows_lookup_fail (ws : WeedingSet) (sudocIdx : Nat) :
    ∀ rois : List (Nat × Row),
      (∀ p ∈ rois, (p.2[sudocIdx]?).isSome) →
      (∃ p ∈ rois, ∃ v, p.2[sudocIdx]? = some v ∧
        lookupA (simplify_sudoc_number v) ws.sudoc_number_to_row_nums = none) →
      augmentRows ws sudocIdx rois = Except.error WriteError.lookupError := by
  intro rois
  induction rois with
  | nil =>
    intro _ hex
    obtain ⟨p, hp, _⟩ := hex
    cases hp
  | cons q rest ih =>
    intro hall hex
    obtain ⟨rn, qrow⟩ := q
    have hq := hall (rn, qrow) (List.mem_cons_self _ _)
    obtain ⟨v, hv⟩ := Option.isSome_iff_exists.mp hq
    simp only [augmentRows]
    have hv0 : qrow[sudocIdx]? = some v := hv
    rw [hv0]
    dsimp only
    cases hlook : lookupA (simplify_sudoc_number v) ws.sudoc_number_to_row_nums with
    | none => rfl
    | some rns =>
      obtain ⟨p, hp, v2, hv2, hl2⟩ := hex
      rcases List.mem_cons.mp hp with heq | hrest
      · have hv2q : qrow[sudocIdx]? = some v2 := by
          rw [heq] at hv2
          exact hv2
        rw [hv0] at hv2q
        cases hv2q
        rw [hlook] at hl2
        cases hl2
      · have hrec := ih (fun r hr => hall r (List.mem_cons_of_mem _ hr)) ⟨p, hrest, v2, hv2, hl2⟩
        rw [hrec]

/-- C7 (amended): for every document scanned by a successful search over a
built index, write_matches_to_file emits the captured header row — extended
with the two new column names — when the document captured a truthy header
(and no header row otherwise), followed by every recorded row of interest
augmented with exactly two trailing columns, its decimal source row number
and the comma-joined weeding-set row numbers looked up after re-normalizing
its classification-number value; and for any document state holding a row
whose normalized value is absent from the mapping, the write fails with the
lookup error. -/
theorem C7_matches_rows (fileRows : List Row) (name : Cell) (ws : WeedingSet)
    (docs : List FDLPReferenceDoc) (s2 : FDLPSearcher) (rd : SearcherReferenceDoc)
    (hbuild : buildWeedingSet fileRows name = Except.ok ws)
    (hsearch : search_fdlp_references (mkSearcher ws) docs = Except.ok s2)
    (hrd : rd ∈ s2.reference_docs) :
    (∃ dataRows : List Row,
      augmentRows ws rd.doc.sudoc_number_column_index rd.rows_of_interest
          = Except.ok dataRows ∧
      writeMatchesRows ws rd = Except.ok
        ((match rd.headers with
          | none => []
          | some h => if h = [] then []
            else [h ++ ["FDLP Row".toList, "SCU Row(s)".toList]]) ++ dataRows) ∧
      List.Forall₂ (fun (p : Nat × Row) (out : Row) => ∃ v rns,
        p.2[rd.doc.sudoc_number_column_index]? = some v ∧
        lookupA (simplify_sudoc_number v) ws.sudoc_number_to_row_nums = some rns ∧
        out = p.2 ++ [toDec p.1, rns]) rd.rows_of_interest dataRows) ∧
    (∀ rd2 : SearcherReferenceDoc,
      (∀ p ∈ rd2.rows_of_interest, (p.2[rd2.doc.sudoc_number_column_index]?).isSome) →
      (∃ p ∈ rd2.rows_of_interest, ∃ v,
        p.2[rd2.doc.sudoc_number_column_index]? = some v ∧
        lookupA (simplify_sudoc_number v) ws.sudoc_number_to_row_nums = none) →
      writeMatchesRows ws rd2 = Except.error WriteError.lookupError) := by
  have hinv := buildWeedingSet_inv fileRows name ws hbuild
  constructor
  · have hsi := ((search_fdlp_inv ws hinv (mkSearcher ws) rfl docs).2 s2 hsearch).1
    have hg := hsi.2.2 rd hrd
    obtain ⟨dataRows, haug, hfa⟩ := augmentRows_of_good ws rd.doc.sudoc_number_column_index
      rd.rows_of_interest hg
    refine ⟨dataRows, haug, ?_, hfa⟩
    unfold writeMatchesRows
    rw [haug]
  · intro rd2 hall hex
    unfold writeMatchesRows
    rw [augmentRows_lookup_fail ws rd2.doc.sudoc_number_column_index
      rd2.rows_of_interest hall hex]

/-- C7 counterexample: a reference document scanned with no header row
produces a matches output holding only the single augmented row of interest —
no header row is written, although the claim promises one for every scanned
document. -/
theorem C7_no_header_row_written :
    (match search_fdlp_references (mkSearcher wsExample) [noHeaderDoc] with
      | Except.ok s => s.reference_docs.map (fun rd => writeMatchesRows s.weeding_set rd)
      | Except.error _ => [])
      = [Except.ok [["A 123".toList, "0".toList, "2,3".toList]]] := by decide

/-- C7 witness: the amended statement instantiated on the example index and
the headered reference document. -/
theorem C7_matches_rows_witness :
    (∃ dataRows : List Row,
      augmentRows wsExample headerDocScanned.doc.sudoc_number_column_index
          headerDocScanned.rows_of_interest = Except.ok dataRows ∧
      writeMatchesRows wsExample headerDocScanned = Except.ok
        ((match headerDocScanned.headers with
          | none => []
          | some h => if h = [] then []
            else [h ++ ["FDLP Row".toList, "SCU Row(s)".toList]]) ++ dataRows) ∧
      List.Forall₂ (fun (p : Nat × Row) (out : Row) => ∃ v rns,
        p.2[headerDocScanned.doc.sudoc_number_column_index]? = some v ∧
        lookupA (simplify_sudoc_number v) wsExample.sudoc_number_to_row_nums = some rns ∧
        out = p.2 ++ [toDec p.1, rns]) headerDocScanned.rows_of_interest dataRows) ∧
    (∀ rd2 : SearcherReferenceDoc,
      (∀ p ∈ rd2.rows_of_interest, (p.2[rd2.doc.sudoc_number_column_index]?).isSome) →
      (∃ p ∈ rd2.rows_of_interest, ∃ v,
        p.2[rd2.doc.sudoc_number_column_index]? = some v ∧
        lookupA (simplify_sudoc_number v) wsExample.sudoc_number_to_row_nums = none) →
      writeMatchesRows wsExample rd2 = Except.error WriteError.lookupError) :=
  C7_matches_rows exampleWeedingRows "Document Number".toList wsExample [headerDoc]
    searchedHeaderDoc headerDocScanned (by decide) (by decide) (by decide)

end GovDocsHelper
